import Mathlib

open Classical

/-!
Shallow embedding of the `ray-tracer-challenge` Rust sources and proofs about
them.  Machine floats (`f32`) are embedded as real numbers; every definition
below is a direct translation of the corresponding Rust item (file and symbol
named in its doc comment), except where a doc comment says it is modelled
from the spec because the snapshot of the repository lacks the definition.
-/

/-- Embedding of `EPSILON` from `src/lib.rs`. -/
def EPSILON : ℝ := 0.00001

/-- Embedding of `equal_f32` (also spelled `f32_equal`) from `src/lib.rs`. -/
def equalF32 (a b : ℝ) : Prop := |a - b| < EPSILON

/-- Embedding of `clamp_i32` from `src/lib.rs`. -/
def clampI32 (num min max : ℤ) : ℤ :=
  if num < min then min else if num > max then max else num

/-- Embedding of `struct Tuple` from `src/tuple.rs`. -/
@[ext]
structure Tuple where
  x : ℝ
  y : ℝ
  z : ℝ
  w : ℝ

/-- Embedding of `Tuple::new` from `src/tuple.rs`. -/
def Tuple.new (x y z w : ℝ) : Tuple := ⟨x, y, z, w⟩

/-- Embedding of `Tuple::point` from `src/tuple.rs`. -/
def Tuple.point (x y z : ℝ) : Tuple := Tuple.new x y z 1

/-- Embedding of `Tuple::vector` from `src/tuple.rs`. -/
def Tuple.vector (x y z : ℝ) : Tuple := Tuple.new x y z 0

/-- Embedding of `Tuple::is_point` from `src/tuple.rs`. -/
def Tuple.is_point (t : Tuple) : Prop := t.w = 1

/-- Embedding of `Tuple::is_vector` from `src/tuple.rs`. -/
def Tuple.is_vector (t : Tuple) : Prop := t.w = 0

/-- Embedding of `Tuple::magnitude` from `src/tuple.rs`. -/
noncomputable def Tuple.magnitude (t : Tuple) : ℝ :=
  Real.sqrt ((t.x * t.x) + (t.y * t.y) + (t.z * t.z) + (t.w * t.w))

/-- Embedding of `Tuple::normalize` from `src/tuple.rs`. -/
noncomputable def Tuple.normalize (t : Tuple) : Tuple :=
  Tuple.new (t.x / t.magnitude) (t.y / t.magnitude) (t.z / t.magnitude)
    (t.w / t.magnitude)

/-- Embedding of `Tuple::dot` from `src/tuple.rs`. -/
def Tuple.dot (t other : Tuple) : ℝ :=
  (t.x * other.x) + (t.y * other.y) + (t.z * other.z) + (t.w * other.w)

/-- Embedding of `Tuple::cross` from `src/tuple.rs`. -/
def Tuple.cross (t other : Tuple) : Tuple :=
  Tuple.vector (t.y * other.z - t.z * other.y) (t.z * other.x - t.x * other.z)
    (t.x * other.y - t.y * other.x)

/-- Embedding of `impl Add for Tuple` from `src/tuple.rs`. -/
def Tuple.add (a other : Tuple) : Tuple :=
  Tuple.new (a.x + other.x) (a.y + other.y) (a.z + other.z) (a.w + other.w)

/-- Embedding of `impl Sub for Tuple` from `src/tuple.rs`. -/
def Tuple.sub (a other : Tuple) : Tuple :=
  Tuple.new (a.x - other.x) (a.y - other.y) (a.z - other.z) (a.w - other.w)

/-- Embedding of `impl Neg for Tuple` from `src/tuple.rs`. -/
def Tuple.neg (a : Tuple) : Tuple := Tuple.new (-a.x) (-a.y) (-a.z) (-a.w)

/-- Embedding of `impl Mul<f32> for Tuple` from `src/tuple.rs`. -/
def Tuple.smul (a : Tuple) (scalar : ℝ) : Tuple :=
  Tuple.new (a.x * scalar) (a.y * scalar) (a.z * scalar) (a.w * scalar)

/-- Embedding of `impl Mul<Tuple> for Tuple` from `src/tuple.rs`. -/
def Tuple.hmul (a other : Tuple) : Tuple :=
  Tuple.new (a.x * other.x) (a.y * other.y) (a.z * other.z) (a.w * other.w)

/-- Embedding of `impl Div<f32> for Tuple` from `src/tuple.rs`. -/
noncomputable def Tuple.div (a : Tuple) (scalar : ℝ) : Tuple :=
  Tuple.new (a.x / scalar) (a.y / scalar) (a.z / scalar) (a.w / scalar)

/-- Embedding of `Tuple::reflect` from `src/tuple.rs`. -/
def Tuple.reflect (t : Tuple) (normal : Tuple) : Tuple :=
  t.sub ((normal.smul 2).smul (t.dot normal))

/-- Embedding of `impl PartialEq for Tuple` (epsilon comparison) from
`src/tuple.rs`. -/
def tupleEq (a other : Tuple) : Prop :=
  equalF32 a.x other.x ∧ equalF32 a.y other.y ∧ equalF32 a.z other.z ∧
    equalF32 a.w other.w

/-- Embedding of `struct Color` from `src/color.rs`. -/
@[ext]
structure Color where
  red : ℝ
  green : ℝ
  blue : ℝ

/-- Embedding of `Color::new` from `src/color.rs`. -/
def Color.new (red green blue : ℝ) : Color := ⟨red, green, blue⟩

/-- Embedding of `Color::black` from `src/color.rs`. -/
def Color.black : Color := Color.new 0 0 0

/-- Embedding of `Color::white` from `src/color.rs`. -/
def Color.white : Color := Color.new 1 1 1

/-- Embedding of `impl Add for Color` from `src/color.rs`. -/
def Color.add (a other : Color) : Color :=
  Color.new (a.red + other.red) (a.green + other.green) (a.blue + other.blue)

/-- Embedding of `impl Sub for Color` from `src/color.rs`. -/
def Color.sub (a other : Color) : Color :=
  Color.new (a.red - other.red) (a.green - other.green) (a.blue - other.blue)

/-- Embedding of `impl Mul<f32> for Color` (scalar scaling) from
`src/color.rs`. -/
def Color.smul (a : Color) (scalar : ℝ) : Color :=
  Color.new (a.red * scalar) (a.green * scalar) (a.blue * scalar)

/-- Embedding of `impl Mul<Color> for Color` (componentwise product) from
`src/color.rs`. -/
def Color.hmul (a other : Color) : Color :=
  Color.new (a.red * other.red) (a.green * other.green) (a.blue * other.blue)

/-- Embedding of `impl PartialEq for Color` (epsilon comparison) from
`src/color.rs`. -/
def colorEq (a other : Color) : Prop :=
  equalF32 a.red other.red ∧ equalF32 a.green other.green ∧
    equalF32 a.blue other.blue

/-- Embedding of `struct Matrix2` from `src/matrix.rs` (row-major entries). -/
@[ext]
structure Matrix2 where
  m00 : ℝ
  m01 : ℝ
  m10 : ℝ
  m11 : ℝ

/-- Embedding of `Matrix2::determinant` from `src/matrix.rs`. -/
def Matrix2.determinant (m : Matrix2) : ℝ :=
  (m.m00 * m.m11) - (m.m10 * m.m01)

/-- Embedding of `struct Matrix3` from `src/matrix.rs` (row-major entries). -/
@[ext]
structure Matrix3 where
  m00 : ℝ
  m01 : ℝ
  m02 : ℝ
  m10 : ℝ
  m11 : ℝ
  m12 : ℝ
  m20 : ℝ
  m21 : ℝ
  m22 : ℝ

/-- Embedding of `Matrix3::submatrix` from `src/matrix.rs`: collect, in
row-major order, the entries whose row differs from `row` and whose column
differs from `col`.  The Rust function asserts `row < 3 && col < 3`; out of
range arguments are a precondition violation and map to a junk value here. -/
def Matrix3.submatrix (m : Matrix3) (row col : Nat) : Matrix2 :=
  match row, col with
  | 0, 0 => ⟨m.m11, m.m12, m.m21, m.m22⟩
  | 0, 1 => ⟨m.m10, m.m12, m.m20, m.m22⟩
  | 0, 2 => ⟨m.m10, m.m11, m.m20, m.m21⟩
  | 1, 0 => ⟨m.m01, m.m02, m.m21, m.m22⟩
  | 1, 1 => ⟨m.m00, m.m02, m.m20, m.m22⟩
  | 1, 2 => ⟨m.m00, m.m01, m.m20, m.m21⟩
  | 2, 0 => ⟨m.m01, m.m02, m.m11, m.m12⟩
  | 2, 1 => ⟨m.m00, m.m02, m.m10, m.m12⟩
  | 2, 2 => ⟨m.m00, m.m01, m.m10, m.m11⟩
  | _, _ => ⟨0, 0, 0, 0⟩

/-- Embedding of `Matrix3::minor` from `src/matrix.rs`. -/
def Matrix3.minor (m : Matrix3) (row col : Nat) : ℝ :=
  (m.submatrix row col).determinant

/-- Embedding of `Matrix3::cofactor` from `src/matrix.rs`. -/
def Matrix3.cofactor (m : Matrix3) (row col : Nat) : ℝ :=
  if (row + col) % 2 = 0 then m.minor row col else -(m.minor row col)

/-- Embedding of `Matrix3::determinant` from `src/matrix.rs`
(cofactor expansion along row 0). -/
def Matrix3.determinant (m : Matrix3) : ℝ :=
  m.m00 * m.cofactor 0 0 + m.m01 * m.cofactor 0 1 + m.m02 * m.cofactor 0 2

/-- Embedding of `struct Matrix4` from `src/matrix.rs` (row-major entries). -/
@[ext]
structure Matrix4 where
  m00 : ℝ
  m01 : ℝ
  m02 : ℝ
  m03 : ℝ
  m10 : ℝ
  m11 : ℝ
  m12 : ℝ
  m13 : ℝ
  m20 : ℝ
  m21 : ℝ
  m22 : ℝ
  m23 : ℝ
  m30 : ℝ
  m31 : ℝ
  m32 : ℝ
  m33 : ℝ

/-- Embedding of `Matrix4::identity` from `src/matrix.rs`. -/
def Matrix4.identity : Matrix4 :=
  ⟨1, 0, 0, 0, 0, 1, 0, 0, 0, 0, 1, 0, 0, 0, 0, 1⟩

/-- Embedding of `Matrix4::transpose` from `src/matrix.rs`. -/
def Matrix4.transpose (m : Matrix4) : Matrix4 :=
  ⟨m.m00, m.m10, m.m20, m.m30,
   m.m01, m.m11, m.m21, m.m31,
   m.m02, m.m12, m.m22, m.m32,
   m.m03, m.m13, m.m23, m.m33⟩

/-- Embedding of `Matrix4::submatrix` from `src/matrix.rs`: collect, in
row-major order, the entries whose row differs from `row` and whose column
differs from `col`.  The Rust function asserts `row < 4 && col < 4`; out of
range arguments are a precondition violation and map to a junk value here. -/
def Matrix4.submatrix (m : Matrix4) (row col : Nat) : Matrix3 :=
  match row, col with
  | 0, 0 => ⟨m.m11, m.m12, m.m13, m.m21, m.m22, m.m23, m.m31, m.m32, m.m33⟩
  | 0, 1 => ⟨m.m10, m.m12, m.m13, m.m20, m.m22, m.m23, m.m30, m.m32, m.m33⟩
  | 0, 2 => ⟨m.m10, m.m11, m.m13, m.m20, m.m21, m.m23, m.m30, m.m31, m.m33⟩
  | 0, 3 => ⟨m.m10, m.m11, m.m12, m.m20, m.m21, m.m22, m.m30, m.m31, m.m32⟩
  | 1, 0 => ⟨m.m01, m.m02, m.m03, m.m21, m.m22, m.m23, m.m31, m.m32, m.m33⟩
  | 1, 1 => ⟨m.m00, m.m02, m.m03, m.m20, m.m22, m.m23, m.m30, m.m32, m.m33⟩
  | 1, 2 => ⟨m.m00, m.m01, m.m03, m.m20, m.m21, m.m23, m.m30, m.m31, m.m33⟩
  | 1, 3 => ⟨m.m00, m.m01, m.m02, m.m20, m.m21, m.m22, m.m30, m.m31, m.m32⟩
  | 2, 0 => ⟨m.m01, m.m02, m.m03, m.m11, m.m12, m.m13, m.m31, m.m32, m.m33⟩
  | 2, 1 => ⟨m.m00, m.m02, m.m03, m.m10, m.m12, m.m13, m.m30, m.m32, m.m33⟩
  | 2, 2 => ⟨m.m00, m.m01, m.m03, m.m10, m.m11, m.m13, m.m30, m.m31, m.m33⟩
  | 2, 3 => ⟨m.m00, m.m01, m.m02, m.m10, m.m11, m.m12, m.m30, m.m31, m.m32⟩
  | 3, 0 => ⟨m.m01, m.m02, m.m03, m.m11, m.m12, m.m13, m.m21, m.m22, m.m23⟩
  | 3, 1 => ⟨m.m00, m.m02, m.m03, m.m10, m.m12, m.m13, m.m20, m.m22, m.m23⟩
  | 3, 2 => ⟨m.m00, m.m01, m.m03, m.m10, m.m11, m.m13, m.m20, m.m21, m.m23⟩
  | 3, 3 => ⟨m.m00, m.m01, m.m02, m.m10, m.m11, m.m12, m.m20, m.m21, m.m22⟩
  | _, _ => ⟨0, 0, 0, 0, 0, 0, 0, 0, 0⟩

/-- Embedding of `Matrix4::minor` from `src/matrix.rs`. -/
def Matrix4.minor (m : Matrix4) (row col : Nat) : ℝ :=
  (m.submatrix row col).determinant

/-- Embedding of `Matrix4::cofactor` from `src/matrix.rs`. -/
def Matrix4.cofactor (m : Matrix4) (row col : Nat) : ℝ :=
  if (row + col) % 2 = 0 then m.minor row col else -(m.minor row col)

/-- Embedding of `Matrix4::determinant` from `src/matrix.rs`
(cofactor expansion along row 0). -/
def Matrix4.determinant (m : Matrix4) : ℝ :=
  m.m00 * m.cofactor 0 0 + m.m01 * m.cofactor 0 1 + m.m02 * m.cofactor 0 2 +
    m.m03 * m.cofactor 0 3

/-- Embedding of `Matrix4::is_invertible` from `src/matrix.rs`. -/
def Matrix4.is_invertible (m : Matrix4) : Prop :=
  ¬ equalF32 m.determinant 0

/-- Embedding of `Matrix4::inverse` from `src/matrix.rs`: the loop pushes
`cofactor(row, col) / det` iterating `col` in the outer loop and `row` in the
inner loop, then reads the pushed values back in row-major order, so entry
`(i, j)` of the result is `cofactor(j, i) / det`. -/
noncomputable def Matrix4.inverse (m : Matrix4) : Matrix4 :=
  let det := m.determinant
  ⟨m.cofactor 0 0 / det, m.cofactor 1 0 / det,
   m.cofactor 2 0 / det, m.cofactor 3 0 / det,
   m.cofactor 0 1 / det, m.cofactor 1 1 / det,
   m.cofactor 2 1 / det, m.cofactor 3 1 / det,
   m.cofactor 0 2 / det, m.cofactor 1 2 / det,
   m.cofactor 2 2 / det, m.cofactor 3 2 / det,
   m.cofactor 0 3 / det, m.cofactor 1 3 / det,
   m.cofactor 2 3 / det, m.cofactor 3 3 / det⟩

/-- Embedding of `Matrix4::scaling` from `src/matrix.rs`. -/
def Matrix4.scaling (x y z : ℝ) : Matrix4 :=
  ⟨x, 0, 0, 0, 0, y, 0, 0, 0, 0, z, 0, 0, 0, 0, 1⟩

/-- Embedding of `Matrix4::translation` from `src/matrix.rs`. -/
def Matrix4.translation (x y z : ℝ) : Matrix4 :=
  ⟨1, 0, 0, x, 0, 1, 0, y, 0, 0, 1, z, 0, 0, 0, 1⟩

/-- Embedding of `impl Mul for Matrix4` from `src/matrix.rs`: entry `(i, j)`
of the product is the dot product of row `i` of the left factor with column
`j` of the right factor. -/
def Matrix4.mul (a other : Matrix4) : Matrix4 :=
  ⟨a.m00 * other.m00 + a.m01 * other.m10 + a.m02 * other.m20 + a.m03 * other.m30,
   a.m00 * other.m01 + a.m01 * other.m11 + a.m02 * other.m21 + a.m03 * other.m31,
   a.m00 * other.m02 + a.m01 * other.m12 + a.m02 * other.m22 + a.m03 * other.m32,
   a.m00 * other.m03 + a.m01 * other.m13 + a.m02 * other.m23 + a.m03 * other.m33,
   a.m10 * other.m00 + a.m11 * other.m10 + a.m12 * other.m20 + a.m13 * other.m30,
   a.m10 * other.m01 + a.m11 * other.m11 + a.m12 * other.m21 + a.m13 * other.m31,
   a.m10 * other.m02 + a.m11 * other.m12 + a.m12 * other.m22 + a.m13 * other.m32,
   a.m10 * other.m03 + a.m11 * other.m13 + a.m12 * other.m23 + a.m13 * other.m33,
   a.m20 * other.m00 + a.m21 * other.m10 + a.m22 * other.m20 + a.m23 * other.m30,
   a.m20 * other.m01 + a.m21 * other.m11 + a.m22 * other.m21 + a.m23 * other.m31,
   a.m20 * other.m02 + a.m21 * other.m12 + a.m22 * other.m22 + a.m23 * other.m32,
   a.m20 * other.m03 + a.m21 * other.m13 + a.m22 * other.m23 + a.m23 * other.m33,
   a.m30 * other.m00 + a.m31 * other.m10 + a.m32 * other.m20 + a.m33 * other.m30,
   a.m30 * other.m01 + a.m31 * other.m11 + a.m32 * other.m21 + a.m33 * other.m31,
   a.m30 * other.m02 + a.m31 * other.m12 + a.m32 * other.m22 + a.m33 * other.m32,
   a.m30 * other.m03 + a.m31 * other.m13 + a.m32 * other.m23 + a.m33 * other.m33⟩

/-- Embedding of `impl Mul<Tuple> for Matrix4` from `src/matrix.rs`. -/
def Matrix4.mulTuple (m : Matrix4) (tuple : Tuple) : Tuple :=
  Tuple.new
    ((m.m00 * tuple.x) + (m.m01 * tuple.y) + (m.m02 * tuple.z) +
      (m.m03 * tuple.w))
    ((m.m10 * tuple.x) + (m.m11 * tuple.y) + (m.m12 * tuple.z) +
      (m.m13 * tuple.w))
    ((m.m20 * tuple.x) + (m.m21 * tuple.y) + (m.m22 * tuple.z) +
      (m.m23 * tuple.w))
    ((m.m30 * tuple.x) + (m.m31 * tuple.y) + (m.m32 * tuple.z) +
      (m.m33 * tuple.w))

/-- Embedding of `impl PartialEq for Matrix4` (epsilon comparison of all 16
entries) from `src/matrix.rs`. -/
def matrix4Eq (a other : Matrix4) : Prop :=
  equalF32 a.m00 other.m00 ∧ equalF32 a.m01 other.m01 ∧
  equalF32 a.m02 other.m02 ∧ equalF32 a.m03 other.m03 ∧
  equalF32 a.m10 other.m10 ∧ equalF32 a.m11 other.m11 ∧
  equalF32 a.m12 other.m12 ∧ equalF32 a.m13 other.m13 ∧
  equalF32 a.m20 other.m20 ∧ equalF32 a.m21 other.m21 ∧
  equalF32 a.m22 other.m22 ∧ equalF32 a.m23 other.m23 ∧
  equalF32 a.m30 other.m30 ∧ equalF32 a.m31 other.m31 ∧
  equalF32 a.m32 other.m32 ∧ equalF32 a.m33 other.m33

/-- Embedding of `struct Material` and `Default for Material` from
`src/material.rs`. -/
structure Material where
  ambient : ℝ
  diffuse : ℝ
  specular : ℝ
  shininess : ℝ
  color : Color

/-- Embedding of `impl Default for Material` from `src/material.rs`. -/
def Material.default : Material :=
  ⟨0.1, 0.9, 0.9, 200, Color.white⟩

/-- Embedding of `struct PointLight` from `src/light.rs`. -/
structure PointLight where
  position : Tuple
  intensity : Color

/-- Embedding of `PointLight::new` from `src/light.rs`.  The Rust constructor
asserts `position.is_point()`; the panic on a non-point position is embedded
as `none`. -/
noncomputable def PointLight.new (position : Tuple) (intensity : Color) :
    Option PointLight :=
  if position.is_point then some ⟨position, intensity⟩ else none

/-- Embedding of `lighting` from `src/light.rs` (Phong shading). -/
noncomputable def lighting (material : Material) (light : PointLight)
    (point eye_vector normal_vector : Tuple) (in_shadow : Bool) : Color :=
  let effective_color := material.color.hmul light.intensity
  let light_vector := (light.position.sub point).normalize
  let ambient := effective_color.smul material.ambient
  if in_shadow then ambient
  else
    let light_dot_normal := light_vector.dot normal_vector
    let ds :=
      if light_dot_normal < 0 then (Color.black, Color.black)
      else
        let diffuse := (effective_color.smul material.diffuse).smul
          light_dot_normal
        let reflection_vector := light_vector.neg.reflect normal_vector
        let reflection_dot_eye := reflection_vector.dot eye_vector
        if reflection_dot_eye ≤ 0 then (diffuse, Color.black)
        else
          let factor := Real.rpow reflection_dot_eye material.shininess
          (diffuse, (light.intensity.smul material.specular).smul factor)
    (ambient.add ds.1).add ds.2

/-- Embedding of `struct Ray` from `src/ray.rs`. -/
structure Ray where
  origin : Tuple
  direction : Tuple

/-- Embedding of `Ray::new` from `src/ray.rs`. -/
def Ray.new (origin direction : Tuple) : Ray := ⟨origin, direction⟩

/-- Embedding of `Ray::position` from `src/ray.rs`. -/
def Ray.position (r : Ray) (t : ℝ) : Tuple :=
  r.origin.add (r.direction.smul t)

/-- Modelled from the spec: `Ray::transform` is called by
`Sphere::intersect` in `src/sphere.rs` but the snapshot of `src/ray.rs` in
this repository predates it.  Spec section 4.3: the transform of a ray by a
matrix `M` is `Ray(M·origin, M·direction)`. -/
def Ray.transform (r : Ray) (m : Matrix4) : Ray :=
  ⟨m.mulTuple r.origin, m.mulTuple r.direction⟩

/-- Embedding of `struct Sphere` from `src/sphere.rs`. -/
structure Sphere where
  origin : Tuple
  radius : ℝ
  transform : Matrix4
  material : Material

/-- Embedding of `impl Default for Sphere` from `src/sphere.rs`. -/
def Sphere.default : Sphere :=
  ⟨Tuple.point 0 0 0, 1, Matrix4.identity, Material.default⟩

/-- Embedding of `struct Intersection` from `src/intersection.rs`. -/
structure Intersection where
  t : ℝ
  object : Sphere
  point : Option Tuple
  eye_vector : Option Tuple
  normal_vector : Option Tuple
  inside : Option Bool
  over_point : Option Tuple

/-- Embedding of `Intersection::new` from `src/intersection.rs`. -/
def Intersection.new (t : ℝ) (object : Sphere) : Intersection :=
  ⟨t, object, none, none, none, none, none⟩

/-- Embedding of `Sphere::intersect` from `src/sphere.rs`. -/
noncomputable def Sphere.intersect (s : Sphere) (ray : Ray) :
    List Intersection :=
  let transformed_ray := ray.transform s.transform.inverse
  let sphere_to_ray := transformed_ray.origin.sub s.origin
  let a := transformed_ray.direction.dot transformed_ray.direction
  let b := 2 * transformed_ray.direction.dot sphere_to_ray
  let c := sphere_to_ray.dot sphere_to_ray - 1
  let discriminant := (b * b) - (4 * a * c)
  if discriminant < 0 then []
  else
    let t1 := (-b - Real.sqrt discriminant) / (2 * a)
    let t2 := (-b + Real.sqrt discriminant) / (2 * a)
    if t1 < t2 then [Intersection.new t1 s, Intersection.new t2 s]
    else [Intersection.new t2 s, Intersection.new t1 s]

/-- Embedding of `Sphere::normal_at` from `src/sphere.rs`. -/
noncomputable def Sphere.normal_at (s : Sphere) (world_point : Tuple) :
    Tuple :=
  let object_point := s.transform.inverse.mulTuple world_point
  let object_normal := object_point.sub s.origin
  let world_normal := s.transform.inverse.transpose.mulTuple object_normal
  let world_normal' := { world_normal with w := 0 }
  world_normal'.normalize

/-- The quadratic coefficient `a` computed inside `Sphere::intersect`
(`src/sphere.rs`), the object-space `dot(direction, direction)`. -/
noncomputable def Sphere.objA (s : Sphere) (ray : Ray) : ℝ :=
  (ray.transform s.transform.inverse).direction.dot
    (ray.transform s.transform.inverse).direction

/-- The quadratic coefficient `b` computed inside `Sphere::intersect`
(`src/sphere.rs`). -/
noncomputable def Sphere.objB (s : Sphere) (ray : Ray) : ℝ :=
  2 * (ray.transform s.transform.inverse).direction.dot
    ((ray.transform s.transform.inverse).origin.sub s.origin)

/-- The quadratic coefficient `c` computed inside `Sphere::intersect`
(`src/sphere.rs`). -/
noncomputable def Sphere.objC (s : Sphere) (ray : Ray) : ℝ :=
  ((ray.transform s.transform.inverse).origin.sub s.origin).dot
    ((ray.transform s.transform.inverse).origin.sub s.origin) - 1

/-- The object-space discriminant `b² − 4ac` computed inside
`Sphere::intersect` (`src/sphere.rs`). -/
noncomputable def Sphere.objDisc (s : Sphere) (ray : Ray) : ℝ :=
  (s.objB ray * s.objB ray) - (4 * s.objA ray * s.objC ray)

/-- Embedding of `Intersection::prepare_hit` from `src/intersection.rs`
(the mutation of `self` becomes a returned updated record). -/
noncomputable def Intersection.prepare_hit (i : Intersection) (ray : Ray) :
    Intersection :=
  let point := ray.position i.t
  let eye_vector := ray.direction.neg
  let nv := i.object.normal_at point
  if nv.dot eye_vector < 0 then
    { i with
      point := some point
      eye_vector := some eye_vector
      normal_vector := some nv.neg
      inside := some true
      over_point := some (point.add (nv.neg.smul EPSILON)) }
  else
    { i with
      point := some point
      eye_vector := some eye_vector
      normal_vector := some nv
      inside := some false
      over_point := some (point.add (nv.smul EPSILON)) }

/-- Embedding of `find_hit` from `src/intersection.rs`: filter out negative
`t` and take the minimum under the `Ord` instance, which compares only `t`
and, like Rust's `Iterator::min`, keeps the first of equally minimal
elements. -/
noncomputable def find_hit (intersections : List Intersection) :
    Option Intersection :=
  match intersections.filter (fun i => decide (i.t ≥ 0)) with
  | [] => none
  | x :: xs => some (xs.foldl (fun acc y => if y.t < acc.t then y else acc) x)

/-- Embedding of `struct World` from `src/world.rs`. -/
structure World where
  light : Option PointLight
  objects : List Sphere

/-- Embedding of `World::new` from `src/world.rs`. -/
def World.new : World := ⟨none, []⟩

/-- Embedding of `World::intersect` from `src/world.rs`: accumulate every
object's intersections and sort (stably) ascending by `t`. -/
noncomputable def World.intersect (w : World) (ray : Ray) :
    List Intersection :=
  (w.objects.flatMap (fun object => object.intersect ray)).mergeSort
    (fun a b => decide (a.t ≤ b.t))

/-- Embedding of `World::is_shadowed` from `src/world.rs`.  The
`self.light.unwrap()` panic on a lightless world is embedded as `none`. -/
noncomputable def World.is_shadowed (w : World) (point : Tuple) :
    Option Bool :=
  match w.light with
  | none => none
  | some light =>
    let shadow_vector := light.position.sub point
    let distance := shadow_vector.magnitude
    let direction := shadow_vector.normalize
    let shadow_ray := Ray.new point direction
    let hit := find_hit (w.intersect shadow_ray)
    some (match hit with
      | some h => decide (h.t < distance)
      | none => false)

/-- Embedding of `Intersection::shade_hit` from `src/intersection.rs`.
Every `unwrap` (the world's light and the prepared-hit fields) is embedded
as an `Option` match whose panic case is `none`. -/
noncomputable def Intersection.shade_hit (i : Intersection) (world : World) :
    Option Color :=
  match world.light, i.point, i.eye_vector, i.normal_vector, i.over_point with
  | some light, some point, some eye_vector, some normal_vector,
      some over_point =>
    (world.is_shadowed over_point).map (fun in_shadow =>
      lighting i.object.material light point eye_vector normal_vector
        in_shadow)
  | _, _, _, _, _ => none

/-- Embedding of `World::color_at` from `src/world.rs`; the value `none`
marks the panics reachable through `shade_hit`. -/
noncomputable def World.color_at (w : World) (ray : Ray) : Option Color :=
  match find_hit (w.intersect ray) with
  | some intersection => (intersection.prepare_hit ray).shade_hit w
  | none => some Color.black

/-- Embedding of `PPM_LINE_LENGTH` from `src/canvas.rs`. -/
def PPM_LINE_LENGTH : Nat := 70

/-- Embedding of `struct Canvas` from `src/canvas.rs`.  The `usize`
dimensions become naturals (their machine bound appears as a hypothesis
where it matters). -/
structure Canvas where
  width : Nat
  height : Nat
  pixels : List Color

/-- Embedding of `Canvas::new` from `src/canvas.rs`. -/
def Canvas.new (width height : Nat) : Canvas :=
  ⟨width, height, List.replicate (width * height) Color.black⟩

/-- Embedding of `f32::round` (used in `Canvas::to_ppm`): round half away
from zero. -/
noncomputable def roundF32 (x : ℝ) : ℤ :=
  if x < 0 then -⌊-x + 1 / 2⌋ else ⌊x + 1 / 2⌋

/-- Embedding of the decimal rendering done by `format!("{}", n)` for a
nonnegative integer, as a character list. -/
def natChars (n : Nat) : List Char :=
  if _h : n < 10 then [Nat.digitChar n]
  else natChars (n / 10) ++ [Nat.digitChar (n % 10)]
decreasing_by exact Nat.div_lt_self (by omega) (by omega)

/-- Embedding of the decimal rendering done by `format!("{}", value)` for an
`i32`, as a character list. -/
def intChars (i : ℤ) : List Char :=
  if i < 0 then '-' :: natChars (-i).toNat else natChars i.toNat

/-- The clamped `[r, g, b]` integer channel values that the loop at the top
of `Canvas::to_ppm` (`src/canvas.rs`) pushes for the canvas's pixels. -/
noncomputable def Canvas.ppmValues (c : Canvas) : List ℤ :=
  c.pixels.flatMap (fun pixel =>
    let scaled_color := pixel.smul 255
    [clampI32 (roundF32 scaled_color.red) 0 255,
     clampI32 (roundF32 scaled_color.green) 0 255,
     clampI32 (roundF32 scaled_color.blue) 0 255])

/-- Embedding of the value-emitting loop of `Canvas::to_ppm`
(`src/canvas.rs`): `i` is the loop index, `ppm` the output accumulated so
far and `line` the current partial line.  Each branch mirrors one `if` of
the source; the final step appends a newline to the pending line and flushes
it. -/
def toPpmLoop (rowLen : Nat) (values : List ℤ) (i : Nat)
    (ppm line : List Char) : List Char :=
  match values with
  | [] => ppm ++ (line ++ ['\n'])
  | v :: rest =>
    let value := intChars v
    let st :=
      if line.length + 1 + value.length ≥ PPM_LINE_LENGTH then
        (ppm ++ (line ++ ['\n']), ([] : List Char))
      else (ppm, line)
    let line' := if 0 < st.2.length then st.2 ++ [' '] ++ value
      else st.2 ++ value
    let st' :=
      if (i + 1) % rowLen = 0 then (st.1 ++ (line' ++ ['\n']), ([] : List Char))
      else (st.1, line')
    toPpmLoop rowLen rest (i + 1) st'.1 st'.2

/-- Embedding of `Canvas::to_ppm` from `src/canvas.rs`, producing the PPM
text as a character list: the three header lines followed by the wrapped
channel values. -/
noncomputable def Canvas.to_ppm (c : Canvas) : List Char :=
  let header := ['P', '3', '\n'] ++ natChars c.width ++ [' '] ++
    natChars c.height ++ ['\n', '2', '5', '5', '\n']
  toPpmLoop (c.width * 3) c.ppmValues 0 header []

/-- Splits a character list at every separator selected by `p`, keeping
empty chunks (specification-side helper for stating the PPM layout claims). -/
def splitBy (p : Char → Bool) : List Char → List (List Char)
  | [] => [[]]
  | ch :: rest =>
    if p ch then [] :: splitBy p rest
    else
      match splitBy p rest with
      | [] => [[ch]]
      | l :: ls => (ch :: l) :: ls

/-- Whether a character is PPM whitespace (space or newline);
specification-side helper. -/
def isSep (ch : Char) : Bool := ch == ' ' || ch == '\n'

/-- The lines of a character list (chunks between newlines);
specification-side helper. -/
def linesOf (s : List Char) : List (List Char) := splitBy (fun ch => ch == '\n') s

/-- The whitespace-separated tokens of a character list;
specification-side helper. -/
def wordsOf (s : List Char) : List (List Char) :=
  (splitBy isSep s).filter (fun l => !l.isEmpty)

/-- A list of completed lines rendered as a flat character list with a
newline after each line; helper for reasoning about `toPpmLoop`. -/
def joinLines (ls : List (List Char)) : List Char :=
  (ls.map (fun l => l ++ ['\n'])).flatten

/-- The object-space normal `object_point - origin` computed inside
`Sphere::normal_at` (`src/sphere.rs`). -/
noncomputable def Sphere.objectNormal (s : Sphere) (world_point : Tuple) :
    Tuple :=
  (s.transform.inverse.mulTuple world_point).sub s.origin

/-- The world-space normal `transpose(inverse(transform)) * object_normal`
computed inside `Sphere::normal_at` (`src/sphere.rs`), before its `w`
component is zeroed. -/
noncomputable def Sphere.worldNormalRaw (s : Sphere) (world_point : Tuple) :
    Tuple :=
  s.transform.inverse.transpose.mulTuple (s.objectNormal world_point)

/-- The world-space normal of `Sphere::normal_at` (`src/sphere.rs`) after
its `w` component is zeroed, immediately before normalization. -/
noncomputable def Sphere.worldNormalZeroed (s : Sphere)
    (world_point : Tuple) : Tuple :=
  { s.worldNormalRaw world_point with w := 0 }

/-- A concrete sphere whose transform is the invertible diagonal matrix
`diag(1, 1, 1, 1/2)`; used to probe `Sphere::normal_at` on a degenerate
input. -/
noncomputable def probeSphere : Sphere :=
  ⟨Tuple.point 0 0 0, 1,
   Matrix4.mk 1 0 0 0 0 1 0 0 0 0 1 0 0 0 0 (1 / 2), Material.default⟩

theorem EPSILON_pos : 0 < EPSILON := by norm_num [EPSILON]

theorem equalF32_refl (x : ℝ) : equalF32 x x := by
  simpa [equalF32] using EPSILON_pos

theorem equalF32_of_eq {x y : ℝ} (h : x = y) : equalF32 x y := by
  subst h; exact equalF32_refl x

theorem tupleEq_refl (t : Tuple) : tupleEq t t :=
  ⟨equalF32_refl _, equalF32_refl _, equalF32_refl _, equalF32_refl _⟩

theorem tuple_add_sub_exact (a b : Tuple) : (a.add b).sub b = a := by
  ext <;> simp [Tuple.add, Tuple.sub, Tuple.new]

/-- Claim C8: for all tuples `a` and `b`, `(a + b) - b` equals `a` under the
epsilon-based tuple equality, i.e. tuple addition and subtraction are
inverse operations. -/
theorem add_sub_inverse (a b : Tuple) : tupleEq ((a.add b).sub b) a := by
  rw [tuple_add_sub_exact]; exact tupleEq_refl a

/-- Claim C4: `lighting` called with `in_shadow = true` returns exactly the
ambient term — the material color componentwise-multiplied by the light
intensity and scaled by the ambient coefficient — independently of the eye
and normal vectors, with no diffuse or specular contribution. -/
theorem lighting_in_shadow_ambient (material : Material) (light : PointLight)
    (point eye_vector normal_vector : Tuple) :
    lighting material light point eye_vector normal_vector true =
      (material.color.hmul light.intensity).smul material.ambient := by
  simp [lighting]

/-- Claim C6: `PointLight::new` fails (the embedded assertion yields `none`)
exactly when the given position has `w ≠ 1`, and on success the light holds
the given position and intensity unchanged. -/
theorem point_light_new_spec (position : Tuple) (intensity : Color) :
    (PointLight.new position intensity = none ↔ position.w ≠ 1) ∧
    (∀ l, PointLight.new position intensity = some l →
      l.position = position ∧ l.intensity = intensity) := by
  unfold PointLight.new Tuple.is_point
  by_cases h : position.w = 1 <;> simp [h]

/-- Claim C9: `prepare_hit` populates all five optional fields of the
intersection and leaves `t` and `object` unchanged. -/
theorem prepare_hit_populates (i : Intersection) (ray : Ray) :
    (i.prepare_hit ray).point.isSome ∧
    (i.prepare_hit ray).eye_vector.isSome ∧
    (i.prepare_hit ray).normal_vector.isSome ∧
    (i.prepare_hit ray).inside.isSome ∧
    (i.prepare_hit ray).over_point.isSome ∧
    (i.prepare_hit ray).t = i.t ∧
    (i.prepare_hit ray).object = i.object := by
  unfold Intersection.prepare_hit
  by_cases h :
      (i.object.normal_at (ray.position i.t)).dot ray.direction.neg < 0 <;>
    simp [h]

theorem shade_hit_lightless (i : Intersection) (w : World)
    (hl : w.light = none) : i.shade_hit w = none := by
  unfold Intersection.shade_hit
  split
  · next light point eye_vector normal_vector over_point heq _ _ _ _ =>
    rw [hl] at heq; exact absurd heq (by simp)
  · rfl

/-- Claim C10: in a world whose `light` is `None`, `color_at` returns black
when the ray has no hit (no intersection with nonnegative `t`), and panics
(embedded as `none`) whenever a hit exists, so a lightless world can never
produce a non-black pixel. -/
theorem color_at_lightless (w : World) (ray : Ray) (hl : w.light = none) :
    (find_hit (w.intersect ray) = none → w.color_at ray = some Color.black) ∧
    (∀ i, find_hit (w.intersect ray) = some i → w.color_at ray = none) := by
  constructor
  · intro h
    unfold World.color_at
    rw [h]
  · intro i h
    unfold World.color_at
    rw [h]
    exact shade_hit_lightless _ _ hl

/-- Witness for C10 at the concrete empty world `World::new` and the ray
from the origin along `+z`. -/
theorem color_at_lightless_witness :
    World.new.light = none ∧
    ((find_hit (World.new.intersect
        (Ray.new (Tuple.point 0 0 0) (Tuple.vector 0 0 1))) = none →
      World.new.color_at (Ray.new (Tuple.point 0 0 0) (Tuple.vector 0 0 1)) =
        some Color.black) ∧
    (∀ i, find_hit (World.new.intersect
        (Ray.new (Tuple.point 0 0 0) (Tuple.vector 0 0 1))) = some i →
      World.new.color_at (Ray.new (Tuple.point 0 0 0) (Tuple.vector 0 0 1)) =
        none)) :=
  ⟨rfl, color_at_lightless World.new
    (Ray.new (Tuple.point 0 0 0) (Tuple.vector 0 0 1)) rfl⟩

theorem foldl_min_mem (xs : List Intersection) (x : Intersection) :
    xs.foldl (fun acc y => if y.t < acc.t then y else acc) x ∈ x :: xs := by
  induction xs generalizing x with
  | nil => simp
  | cons y ys ih =>
    simp only [List.foldl_cons]
    rcases List.mem_cons.mp (ih (if y.t < x.t then y else x)) with h | h
    · by_cases hc : y.t < x.t
      · rw [h]; simp [hc]
      · rw [h]; simp [hc]
    · simp [List.mem_cons, Or.inr (Or.inr h)]

theorem foldl_min_le : ∀ (xs : List Intersection) (x i : Intersection),
    i ∈ x :: xs →
    (xs.foldl (fun acc y => if y.t < acc.t then y else acc) x).t ≤ i.t := by
  intro xs
  induction xs with
  | nil =>
    intro x i hi
    simp only [List.mem_singleton] at hi
    rw [hi]
    simp
  | cons y ys ih =>
    intro x i hi
    simp only [List.foldl_cons]
    have hstep₁ : (if y.t < x.t then y else x).t ≤ x.t := by
      by_cases hc : y.t < x.t <;> simp [hc] <;> linarith
    have hstep₂ : (if y.t < x.t then y else x).t ≤ y.t := by
      by_cases hc : y.t < x.t <;> simp [hc] <;> linarith
    have hhead :
        (ys.foldl (fun acc y => if y.t < acc.t then y else acc)
          (if y.t < x.t then y else x)).t ≤ (if y.t < x.t then y else x).t :=
      ih (if y.t < x.t then y else x) (if y.t < x.t then y else x) (by simp)
    rcases List.mem_cons.mp hi with h | h
    · rw [h]; exact le_trans hhead hstep₁
    · rcases List.mem_cons.mp h with h2 | h2
      · rw [h2]; exact le_trans hhead hstep₂
      · exact ih (if y.t < x.t then y else x) i (List.mem_cons_of_mem _ h2)

/-- Claim C2: `find_hit` returns a record with the smallest nonnegative `t`
(records with `t < 0` are excluded), returns `none` exactly when no record
has `t ≥ 0`, and over the `t` values `[5, 7, −3, 2]` it returns the record
with `t = 2`. -/
theorem find_hit_spec :
    (∀ l : List Intersection,
      (find_hit l = none ↔ ∀ i ∈ l, i.t < 0) ∧
      (∀ r, find_hit l = some r →
        r ∈ l ∧ 0 ≤ r.t ∧ ∀ i ∈ l, 0 ≤ i.t → r.t ≤ i.t)) ∧
    Option.map Intersection.t (find_hit
      [Intersection.new 5 Sphere.default, Intersection.new 7 Sphere.default,
       Intersection.new (-3) Sphere.default,
       Intersection.new 2 Sphere.default]) = some 2 := by
  constructor
  · intro l
    constructor
    · unfold find_hit
      cases hf : l.filter (fun i => decide (i.t ≥ 0)) with
      | nil =>
        simp only [true_iff]
        have := List.filter_eq_nil_iff.mp hf
        intro i hi
        have hni := this i hi
        simp only [decide_eq_true_eq] at hni
        linarith [lt_of_not_ge hni]
      | cons x xs =>
        simp only [reduceCtorEq, false_iff, not_forall]
        have hx : x ∈ l.filter (fun i => decide (i.t ≥ 0)) := by
          rw [hf]; simp
        have hx' := List.mem_filter.mp hx
        refine ⟨x, hx'.1, ?_⟩
        have := hx'.2
        simp only [decide_eq_true_eq] at this
        linarith
    · intro r hr
      unfold find_hit at hr
      cases hf : l.filter (fun i => decide (i.t ≥ 0)) with
      | nil => rw [hf] at hr; exact absurd hr (by simp)
      | cons x xs =>
        rw [hf] at hr
        simp only [Option.some.injEq] at hr
        have hmem : r ∈ x :: xs := hr ▸ foldl_min_mem xs x
        have hrf : r ∈ l.filter (fun i => decide (i.t ≥ 0)) := by
          rw [hf]; exact hmem
        have hrl := List.mem_filter.mp hrf
        have hrt : 0 ≤ r.t := by
          have := hrl.2; simp only [decide_eq_true_eq] at this; linarith
        refine ⟨hrl.1, hrt, ?_⟩
        intro i hi hit
        have hif : i ∈ l.filter (fun j => decide (j.t ≥ 0)) :=
          List.mem_filter.mpr ⟨hi, by simp only [decide_eq_true_eq]; linarith⟩
        rw [hf] at hif
        exact hr ▸ foldl_min_le xs x i hif
  · unfold find_hit
    have h5 : (decide ((Intersection.new 5 Sphere.default).t ≥ 0)) = true := by
      simp [Intersection.new]
    have h7 : (decide ((Intersection.new 7 Sphere.default).t ≥ 0)) = true := by
      simp [Intersection.new]
    have h3 : (decide ((Intersection.new (-3) Sphere.default).t ≥ 0)) =
        false := by simp [Intersection.new]
    have h2 : (decide ((Intersection.new 2 Sphere.default).t ≥ 0)) = true := by
      simp [Intersection.new]
    simp only [List.filter_cons, List.filter_nil, h5, h7, h3, h2,
      if_true, if_false, List.foldl_cons, List.foldl_nil, Intersection.new]
    norm_num

set_option maxHeartbeats 1600000

theorem is_invertible_det_ne_zero {m : Matrix4} (h : m.is_invertible) :
    m.determinant ≠ 0 := by
  intro hdet
  refine h ?_
  simp only [equalF32, hdet, sub_zero, abs_zero, EPSILON]
  norm_num

theorem Matrix4.mul_inverse_exact (m : Matrix4) (h : m.determinant ≠ 0) :
    m.mul m.inverse = Matrix4.identity := by
  ext
  all_goals simp only [Matrix4.mul, Matrix4.inverse, Matrix4.identity]
  all_goals field_simp
  all_goals simp only [Matrix4.cofactor, Matrix4.minor, Matrix4.submatrix,
    Matrix3.determinant, Matrix3.cofactor, Matrix3.minor, Matrix3.submatrix,
    Matrix2.determinant, Matrix4.determinant]
  all_goals try norm_num
  all_goals ring

theorem matrix4Eq_of_eq {a b : Matrix4} (h : a = b) : matrix4Eq a b := by
  subst h
  exact ⟨equalF32_refl _, equalF32_refl _, equalF32_refl _, equalF32_refl _,
    equalF32_refl _, equalF32_refl _, equalF32_refl _, equalF32_refl _,
    equalF32_refl _, equalF32_refl _, equalF32_refl _, equalF32_refl _,
    equalF32_refl _, equalF32_refl _, equalF32_refl _, equalF32_refl _⟩

/-- Claim C5: for every 4×4 matrix that `is_invertible` accepts, the product
`M * M.inverse()` equals the identity matrix under the epsilon-based matrix
equality. -/
theorem matrix_mul_inverse_identity (m : Matrix4) (h : m.is_invertible) :
    matrix4Eq (m.mul m.inverse) Matrix4.identity :=
  matrix4Eq_of_eq (m.mul_inverse_exact (is_invertible_det_ne_zero h))

theorem identity_determinant : Matrix4.identity.determinant = 1 := by
  simp only [Matrix4.identity, Matrix4.determinant, Matrix4.cofactor,
    Matrix4.minor, Matrix4.submatrix, Matrix3.determinant, Matrix3.cofactor,
    Matrix3.minor, Matrix3.submatrix, Matrix2.determinant]
  norm_num

theorem identity_is_invertible : Matrix4.identity.is_invertible := by
  simp only [Matrix4.is_invertible, equalF32, identity_determinant, EPSILON]
  norm_num

/-- Witness for C5 at the concrete invertible matrix `Matrix4::identity`. -/
theorem matrix_mul_inverse_identity_witness :
    Matrix4.identity.is_invertible ∧
    matrix4Eq (Matrix4.identity.mul Matrix4.identity.inverse)
      Matrix4.identity :=
  ⟨identity_is_invertible,
    matrix_mul_inverse_identity Matrix4.identity identity_is_invertible⟩

theorem Matrix4.mulTuple_mul (a b : Matrix4) (v : Tuple) :
    (a.mul b).mulTuple v = a.mulTuple (b.mulTuple v) := by
  ext
  all_goals simp only [Matrix4.mul, Matrix4.mulTuple, Tuple.new]
  all_goals ring

theorem Matrix4.identity_mulTuple (v : Tuple) :
    Matrix4.identity.mulTuple v = v := by
  ext
  all_goals simp [Matrix4.identity, Matrix4.mulTuple, Tuple.new]

theorem mulTuple_zero (m : Matrix4) :
    m.mulTuple (Tuple.new 0 0 0 0) = Tuple.new 0 0 0 0 := by
  ext
  all_goals simp [Matrix4.mulTuple, Tuple.new]

theorem inverse_mulTuple_ne_zero (m : Matrix4) (h : m.determinant ≠ 0)
    (v : Tuple) (hv : v ≠ Tuple.new 0 0 0 0) :
    m.inverse.mulTuple v ≠ Tuple.new 0 0 0 0 := by
  intro h0
  apply hv
  have hv' := congrArg m.mulTuple h0
  rw [← Matrix4.mulTuple_mul, m.mul_inverse_exact h,
    Matrix4.identity_mulTuple, mulTuple_zero] at hv'
  exact hv'

theorem tuple_dot_self_pos (v : Tuple) (hv : v ≠ Tuple.new 0 0 0 0) :
    0 < v.dot v := by
  have hcomp : v.x ≠ 0 ∨ v.y ≠ 0 ∨ v.z ≠ 0 ∨ v.w ≠ 0 := by
    by_contra hc
    push_neg at hc
    exact hv (by ext <;> simp [Tuple.new, hc.1, hc.2.1, hc.2.2.1, hc.2.2.2])
  unfold Tuple.dot
  rcases hcomp with h | h | h | h <;>
    nlinarith [mul_self_nonneg v.x, mul_self_nonneg v.y,
      mul_self_nonneg v.z, mul_self_nonneg v.w, mul_self_pos.mpr h]

theorem Sphere.intersect_eq (s : Sphere) (ray : Ray) :
    s.intersect ray =
      if s.objDisc ray < 0 then []
      else
        if (-(s.objB ray) - Real.sqrt (s.objDisc ray)) / (2 * s.objA ray) <
            (-(s.objB ray) + Real.sqrt (s.objDisc ray)) / (2 * s.objA ray) then
          [Intersection.new
            ((-(s.objB ray) - Real.sqrt (s.objDisc ray)) / (2 * s.objA ray)) s,
           Intersection.new
            ((-(s.objB ray) + Real.sqrt (s.objDisc ray)) / (2 * s.objA ray)) s]
        else
          [Intersection.new
            ((-(s.objB ray) + Real.sqrt (s.objDisc ray)) / (2 * s.objA ray)) s,
           Intersection.new
            ((-(s.objB ray) - Real.sqrt (s.objDisc ray)) / (2 * s.objA ray)) s]
    := rfl

/-- Claim C1: for a sphere with invertible transform and a ray with nonzero
direction, `Sphere::intersect` returns the empty list exactly when the
object-space discriminant is negative, and otherwise exactly the two
intersections `(−b−√disc)/2a` and `(−b+√disc)/2a`, both tagged with the
sphere, in ascending order of `t`. -/
theorem sphere_intersect_roots (s : Sphere) (ray : Ray)
    (hinv : s.transform.is_invertible)
    (hdir : ray.direction ≠ Tuple.new 0 0 0 0) :
    (s.objDisc ray < 0 → s.intersect ray = []) ∧
    (0 ≤ s.objDisc ray →
      s.intersect ray =
        [Intersection.new
          ((-(s.objB ray) - Real.sqrt (s.objDisc ray)) / (2 * s.objA ray)) s,
         Intersection.new
          ((-(s.objB ray) + Real.sqrt (s.objDisc ray)) / (2 * s.objA ray)) s] ∧
      (-(s.objB ray) - Real.sqrt (s.objDisc ray)) / (2 * s.objA ray) ≤
        (-(s.objB ray) + Real.sqrt (s.objDisc ray)) / (2 * s.objA ray)) := by
  have hdet := is_invertible_det_ne_zero hinv
  have hdnz : (ray.transform s.transform.inverse).direction ≠
      Tuple.new 0 0 0 0 :=
    inverse_mulTuple_ne_zero s.transform hdet ray.direction hdir
  have ha : 0 < s.objA ray :=
    tuple_dot_self_pos (ray.transform s.transform.inverse).direction hdnz
  rw [Sphere.intersect_eq]
  constructor
  · intro hneg
    rw [if_pos hneg]
  · intro hpos
    rw [if_neg (not_lt.mpr hpos)]
    have hle : (-(s.objB ray) - Real.sqrt (s.objDisc ray)) / (2 * s.objA ray) ≤
        (-(s.objB ray) + Real.sqrt (s.objDisc ray)) / (2 * s.objA ray) := by
      apply div_le_div_of_nonneg_right ?_ (by linarith) |>.trans_eq rfl
      linarith [Real.sqrt_nonneg (s.objDisc ray)]
    by_cases hlt :
        (-(s.objB ray) - Real.sqrt (s.objDisc ray)) / (2 * s.objA ray) <
        (-(s.objB ray) + Real.sqrt (s.objDisc ray)) / (2 * s.objA ray)
    · rw [if_pos hlt]
      exact ⟨rfl, hle⟩
    · rw [if_neg hlt]
      have heq := le_antisymm hle (not_lt.mp hlt)
      rw [heq]
      exact ⟨rfl, le_refl _⟩

theorem default_transform_is_invertible :
    Sphere.default.transform.is_invertible := identity_is_invertible

theorem axis_ray_direction_ne_zero :
    (Ray.new (Tuple.point 0 0 (-5)) (Tuple.vector 0 0 1)).direction ≠
      Tuple.new 0 0 0 0 := by
  simp [Ray.new, Tuple.vector, Tuple.new]

/-- Witness for C1 at the default unit sphere and the ray from `(0,0,−5)`
along `+z`. -/
theorem sphere_intersect_roots_witness :
    Sphere.default.transform.is_invertible ∧
    (Ray.new (Tuple.point 0 0 (-5)) (Tuple.vector 0 0 1)).direction ≠
      Tuple.new 0 0 0 0 ∧
    ((Sphere.default.objDisc
        (Ray.new (Tuple.point 0 0 (-5)) (Tuple.vector 0 0 1)) < 0 →
      Sphere.default.intersect
        (Ray.new (Tuple.point 0 0 (-5)) (Tuple.vector 0 0 1)) = []) ∧
    (0 ≤ Sphere.default.objDisc
        (Ray.new (Tuple.point 0 0 (-5)) (Tuple.vector 0 0 1)) →
      Sphere.default.intersect
          (Ray.new (Tuple.point 0 0 (-5)) (Tuple.vector 0 0 1)) =
        [Intersection.new
          ((-(Sphere.default.objB
              (Ray.new (Tuple.point 0 0 (-5)) (Tuple.vector 0 0 1))) -
            Real.sqrt (Sphere.default.objDisc
              (Ray.new (Tuple.point 0 0 (-5)) (Tuple.vector 0 0 1)))) /
           (2 * Sphere.default.objA
              (Ray.new (Tuple.point 0 0 (-5)) (Tuple.vector 0 0 1))))
          Sphere.default,
         Intersection.new
          ((-(Sphere.default.objB
              (Ray.new (Tuple.point 0 0 (-5)) (Tuple.vector 0 0 1))) +
            Real.sqrt (Sphere.default.objDisc
              (Ray.new (Tuple.point 0 0 (-5)) (Tuple.vector 0 0 1)))) /
           (2 * Sphere.default.objA
              (Ray.new (Tuple.point 0 0 (-5)) (Tuple.vector 0 0 1))))
          Sphere.default] ∧
      (-(Sphere.default.objB
          (Ray.new (Tuple.point 0 0 (-5)) (Tuple.vector 0 0 1))) -
        Real.sqrt (Sphere.default.objDisc
          (Ray.new (Tuple.point 0 0 (-5)) (Tuple.vector 0 0 1)))) /
       (2 * Sphere.default.objA
          (Ray.new (Tuple.point 0 0 (-5)) (Tuple.vector 0 0 1))) ≤
      (-(Sphere.default.objB
          (Ray.new (Tuple.point 0 0 (-5)) (Tuple.vector 0 0 1))) +
        Real.sqrt (Sphere.default.objDisc
          (Ray.new (Tuple.point 0 0 (-5)) (Tuple.vector 0 0 1)))) /
       (2 * Sphere.default.objA
          (Ray.new (Tuple.point 0 0 (-5)) (Tuple.vector 0 0 1))))) :=
  ⟨default_transform_is_invertible, axis_ray_direction_ne_zero,
    sphere_intersect_roots Sphere.default
      (Ray.new (Tuple.point 0 0 (-5)) (Tuple.vector 0 0 1))
      default_transform_is_invertible axis_ray_direction_ne_zero⟩

theorem magnitude_eq_sqrt_dot (v : Tuple) :
    v.magnitude = Real.sqrt (v.dot v) := rfl

theorem magnitude_pos (v : Tuple) (hv : v ≠ Tuple.new 0 0 0 0) :
    0 < v.magnitude :=
  Real.sqrt_pos.mpr (tuple_dot_self_pos v hv)

theorem normalize_magnitude (v : Tuple) (hv : v ≠ Tuple.new 0 0 0 0) :
    v.normalize.magnitude = 1 := by
  have hd := tuple_dot_self_pos v hv
  have hmm : v.magnitude * v.magnitude = v.dot v :=
    Real.mul_self_sqrt hd.le
  have key : v.normalize.dot v.normalize =
      (v.dot v) / (v.magnitude * v.magnitude) := by
    unfold Tuple.normalize Tuple.dot Tuple.new
    simp only
    ring
  rw [magnitude_eq_sqrt_dot, key, hmm, div_self hd.ne', Real.sqrt_one]

theorem normalize_of_magnitude_one (v : Tuple) (h : v.magnitude = 1) :
    v.normalize = v := by
  ext
  all_goals simp [Tuple.normalize, Tuple.new, h]

theorem normal_at_eq (s : Sphere) (p : Tuple) :
    s.normal_at p = (s.worldNormalZeroed p).normalize := rfl

theorem worldNormalZeroed_w (s : Sphere) (p : Tuple) :
    (s.worldNormalZeroed p).w = 0 := rfl

/-- Amended claim C3: for every sphere with an invertible transform and
every world point for which the transformed object-space normal is nonzero
**after its `w` component is zeroed**, `Sphere::normal_at` returns a tuple
with `w = 0` whose magnitude is 1 (hence within epsilon of 1), and which
equals its own normalization. -/
theorem normal_at_unit (s : Sphere) (p : Tuple)
    (hinv : s.transform.is_invertible)
    (hnz : s.worldNormalZeroed p ≠ Tuple.new 0 0 0 0) :
    (s.normal_at p).w = 0 ∧ equalF32 (s.normal_at p).magnitude 1 ∧
      s.normal_at p = (s.normal_at p).normalize := by
  have hm := magnitude_pos _ hnz
  have hmag : (s.normal_at p).magnitude = 1 := by
    rw [normal_at_eq]
    exact normalize_magnitude _ hnz
  refine ⟨?_, ?_, ?_⟩
  · rw [normal_at_eq]
    show (s.worldNormalZeroed p).w / (s.worldNormalZeroed p).magnitude = 0
    rw [worldNormalZeroed_w, zero_div]
  · exact equalF32_of_eq hmag
  · exact (normalize_of_magnitude_one _ hmag).symm

theorem probe_inverse :
    probeSphere.transform.inverse = Matrix4.mk 1 0 0 0 0 1 0 0 0 0 1 0 0 0 0 2
    := by
  ext
  all_goals simp only [probeSphere, Matrix4.inverse, Matrix4.cofactor,
    Matrix4.minor, Matrix4.submatrix, Matrix3.determinant, Matrix3.cofactor,
    Matrix3.minor, Matrix3.submatrix, Matrix2.determinant,
    Matrix4.determinant]
  all_goals norm_num

theorem probe_is_invertible : probeSphere.transform.is_invertible := by
  intro habs
  rw [equalF32] at habs
  have hdet : probeSphere.transform.determinant = 1 / 2 := by
    simp only [probeSphere, Matrix4.determinant, Matrix4.cofactor,
      Matrix4.minor, Matrix4.submatrix, Matrix3.determinant, Matrix3.cofactor,
      Matrix3.minor, Matrix3.submatrix, Matrix2.determinant]
    norm_num
  rw [hdet, EPSILON, sub_zero,
    abs_of_nonneg (by norm_num : (0:ℝ) ≤ 1 / 2)] at habs
  norm_num at habs

theorem probe_objectNormal :
    probeSphere.objectNormal (Tuple.point 0 0 0) = Tuple.new 0 0 0 1 := by
  unfold Sphere.objectNormal
  rw [probe_inverse]
  ext
  all_goals simp [Matrix4.mulTuple, Tuple.sub, Tuple.point, Tuple.new,
    probeSphere]
  all_goals norm_num

theorem probe_worldNormalRaw :
    probeSphere.worldNormalRaw (Tuple.point 0 0 0) = Tuple.new 0 0 0 2 := by
  unfold Sphere.worldNormalRaw
  rw [probe_objectNormal, probe_inverse]
  ext
  all_goals simp [Matrix4.transpose, Matrix4.mulTuple, Tuple.new]

theorem probe_normal_at :
    probeSphere.normal_at (Tuple.point 0 0 0) = Tuple.new 0 0 0 0 := by
  rw [normal_at_eq]
  have hz : probeSphere.worldNormalZeroed (Tuple.point 0 0 0) =
      Tuple.new 0 0 0 0 := by
    unfold Sphere.worldNormalZeroed
    rw [probe_worldNormalRaw]
    rfl
  rw [hz]
  ext
  all_goals simp [Tuple.normalize, Tuple.magnitude, Tuple.new]

/-- Counterexample to claim C3 as stated: the sphere `probeSphere` has the
invertible transform `diag(1,1,1,1/2)`, at the world point `(0,0,0)` the
object-space normal and its transform by the transposed inverse are both
nonzero (the latter is `(0,0,0,2)`), yet the magnitude of the returned
normal is 0 and not within epsilon of 1, because zeroing the `w` component
leaves the zero vector and normalization divides by zero (`NaN` in the Rust
floats). -/
theorem normal_at_claim_counterexample :
    probeSphere.transform.is_invertible ∧
    probeSphere.objectNormal (Tuple.point 0 0 0) ≠ Tuple.new 0 0 0 0 ∧
    probeSphere.worldNormalRaw (Tuple.point 0 0 0) ≠ Tuple.new 0 0 0 0 ∧
    ¬ equalF32 (probeSphere.normal_at (Tuple.point 0 0 0)).magnitude 1 := by
  refine ⟨probe_is_invertible, ?_, ?_, ?_⟩
  · rw [probe_objectNormal]
    simp [Tuple.new]
  · rw [probe_worldNormalRaw]
    simp [Tuple.new]
  · rw [probe_normal_at]
    have hmagz : (Tuple.new 0 0 0 0).magnitude = 0 := by
      simp [Tuple.magnitude, Tuple.new]
    rw [hmagz, equalF32, EPSILON]
    norm_num

theorem identity_inverse : Matrix4.identity.inverse = Matrix4.identity := by
  ext
  all_goals simp only [Matrix4.identity, Matrix4.inverse, Matrix4.cofactor,
    Matrix4.minor, Matrix4.submatrix, Matrix3.determinant, Matrix3.cofactor,
    Matrix3.minor, Matrix3.submatrix, Matrix2.determinant,
    Matrix4.determinant]
  all_goals norm_num

theorem default_worldNormalZeroed :
    Sphere.default.worldNormalZeroed (Tuple.point 1 0 0) ≠
      Tuple.new 0 0 0 0 := by
  have hk : Sphere.default.worldNormalZeroed (Tuple.point 1 0 0) =
      Tuple.new 1 0 0 0 := by
    unfold Sphere.worldNormalZeroed Sphere.worldNormalRaw Sphere.objectNormal
      Sphere.default
    simp only
    rw [identity_inverse]
    ext
    all_goals simp [Matrix4.transpose, Matrix4.identity, Matrix4.mulTuple,
      Tuple.sub, Tuple.point, Tuple.new]
  rw [hk]
  simp [Tuple.new]

/-- Witness for the amended claim C3 at the default unit sphere and the
world point `(1,0,0)`. -/
theorem normal_at_unit_witness :
    Sphere.default.transform.is_invertible ∧
    Sphere.default.worldNormalZeroed (Tuple.point 1 0 0) ≠
      Tuple.new 0 0 0 0 ∧
    ((Sphere.default.normal_at (Tuple.point 1 0 0)).w = 0 ∧
      equalF32 (Sphere.default.normal_at (Tuple.point 1 0 0)).magnitude 1 ∧
      Sphere.default.normal_at (Tuple.point 1 0 0) =
        (Sphere.default.normal_at (Tuple.point 1 0 0)).normalize) :=
  ⟨default_transform_is_invertible, default_worldNormalZeroed,
    normal_at_unit Sphere.default (Tuple.point 1 0 0)
      default_transform_is_invertible default_worldNormalZeroed⟩

theorem splitBy_ne_nil (p : Char → Bool) (s : List Char) :
    splitBy p s ≠ [] := by
  cases s with
  | nil => simp [splitBy]
  | cons ch rest =>
    simp only [splitBy]
    by_cases hp : p ch
    · simp [hp]
    · simp only [hp, if_false, Bool.false_eq_true]
      cases splitBy p rest <;> simp

theorem splitBy_append_noSep (p : Char → Bool) :
    ∀ (a b : List Char), (∀ ch ∈ a, p ch = false) →
    splitBy p (a ++ b) =
      match splitBy p b with
      | [] => [a]
      | l :: ls => (a ++ l) :: ls := by
  intro a
  induction a with
  | nil =>
    intro b _
    cases hb : splitBy p b with
    | nil => exact absurd hb (splitBy_ne_nil p b)
    | cons l ls => simp [hb]
  | cons ch a' ih =>
    intro b hns
    have hch : p ch = false := hns ch (by simp)
    have ha' : ∀ c ∈ a', p c = false := fun c hc => hns c (by simp [hc])
    simp only [List.cons_append, splitBy, hch, Bool.false_eq_true, if_false,
      List.append_eq]
    rw [ih b ha']
    cases hb : splitBy p b with
    | nil => exact absurd hb (splitBy_ne_nil p b)
    | cons l ls => simp

theorem splitBy_noSep (p : Char → Bool) (l : List Char)
    (h : ∀ ch ∈ l, p ch = false) : splitBy p l = [l] := by
  have := splitBy_append_noSep p l [] h
  simpa [splitBy] using this

theorem splitBy_append_sep (p : Char → Bool) (c : Char) (hc : p c = true) :
    ∀ (a b : List Char), splitBy p (a ++ c :: b) =
      splitBy p a ++ splitBy p b := by
  intro a
  induction a with
  | nil =>
    intro b
    simp [splitBy, hc]
  | cons ch a' ih =>
    intro b
    by_cases hp : p ch
    · simp only [List.cons_append, splitBy, hp, if_true, List.append_eq]
      rw [ih b]
    · simp only [List.cons_append, splitBy, hp, Bool.false_eq_true, if_false,
        List.append_eq]
      rw [ih b]
      cases ha' : splitBy p a' with
      | nil => exact absurd ha' (splitBy_ne_nil p a')
      | cons l ls => simp

theorem wordsOf_append_sep (c : Char) (hc : isSep c = true)
    (a b : List Char) : wordsOf (a ++ c :: b) = wordsOf a ++ wordsOf b := by
  unfold wordsOf
  rw [splitBy_append_sep isSep c hc a b, List.filter_append]

theorem wordsOf_noSep (l : List Char) (hns : ∀ ch ∈ l, isSep ch = false)
    (hne : l ≠ []) : wordsOf l = [l] := by
  unfold wordsOf
  rw [splitBy_noSep isSep l hns]
  simp [hne]

theorem wordsOf_nil : wordsOf [] = [] := by
  simp [wordsOf, splitBy]

theorem joinLines_append (xs ys : List (List Char)) :
    joinLines (xs ++ ys) = joinLines xs ++ joinLines ys := by
  simp [joinLines]

theorem joinLines_cons (l : List Char) (ls : List (List Char)) :
    joinLines (l :: ls) = l ++ '\n' :: joinLines ls := by
  simp [joinLines]

theorem joinLines_nil : joinLines [] = [] := by simp [joinLines]

theorem linesOf_joinLines (ls : List (List Char))
    (h : ∀ l ∈ ls, ∀ ch ∈ l, (ch == '\n') = false) :
    linesOf (joinLines ls) = ls ++ [[]] := by
  induction ls with
  | nil => simp [joinLines, linesOf, splitBy]
  | cons l rest ih =>
    rw [joinLines_cons]
    unfold linesOf
    rw [splitBy_append_sep (fun ch => ch == '\n') '\n' (by simp) l
      (joinLines rest)]
    rw [splitBy_noSep (fun ch => ch == '\n') l (h l (by simp))]
    have := ih (fun l' hl' => h l' (by simp [hl']))
    unfold linesOf at this
    rw [this]
    simp

theorem joinLines_ends_newline (ls : List (List Char)) (h : ls ≠ []) :
    ∃ s, joinLines ls = s ++ ['\n'] := by
  induction ls with
  | nil => exact absurd rfl h
  | cons l rest ih =>
    cases hr : rest with
    | nil => exact ⟨l, by simp [joinLines]⟩
    | cons r rs =>
      obtain ⟨s, hs⟩ := ih (by simp [hr])
      refine ⟨l ++ '\n' :: s, ?_⟩
      rw [← hr, joinLines_cons, hs]
      simp

theorem wordsOf_joinLines_append (done : List (List Char)) (r : List Char) :
    wordsOf (joinLines done ++ r) = wordsOf (joinLines done) ++ wordsOf r := by
  induction done with
  | nil => simp [joinLines_nil, wordsOf_nil]
  | cons l rest ih =>
    rw [joinLines_cons]
    have h1 : l ++ '\n' :: joinLines rest ++ r =
        l ++ '\n' :: (joinLines rest ++ r) := by simp
    rw [h1, wordsOf_append_sep '\n' (by simp [isSep]) l (joinLines rest ++ r),
      ih, wordsOf_append_sep '\n' (by simp [isSep]) l (joinLines rest)]
    simp

theorem wordsOf_joinLines_snoc (done : List (List Char)) (line : List Char) :
    wordsOf (joinLines (done ++ [line])) =
      wordsOf (joinLines done) ++ wordsOf line := by
  rw [joinLines_append, wordsOf_joinLines_append]
  have : joinLines [line] = line ++ '\n' :: [] := by simp [joinLines]
  rw [this, wordsOf_append_sep '\n' (by simp [isSep]) line [], wordsOf_nil]
  simp

theorem digitChar_not_sep : ∀ m : Nat, m < 10 →
    isSep (Nat.digitChar m) = false := by decide

theorem natChars_ne_nil (n : Nat) : natChars n ≠ [] := by
  rw [natChars]
  split <;> simp

theorem natChars_not_sep (n : Nat) : ∀ ch ∈ natChars n, isSep ch = false := by
  induction n using Nat.strong_induction_on with
  | _ n ih =>
    rw [natChars]
    split
    · next hlt =>
      intro ch hch
      simp only [List.mem_singleton] at hch
      rw [hch]
      exact digitChar_not_sep n hlt
    · next hge =>
      intro ch hch
      rcases List.mem_append.mp hch with h | h
      · exact ih (n / 10) (Nat.div_lt_self (by omega) (by omega)) ch h
      · simp only [List.mem_singleton] at h
        rw [h]
        exact digitChar_not_sep (n % 10) (Nat.mod_lt n (by omega))

theorem natChars_length_le (k : Nat) : ∀ n : Nat, n < 10 ^ (k + 1) →
    (natChars n).length ≤ k + 1 := by
  induction k with
  | zero =>
    intro n hn
    rw [natChars, dif_pos (by simpa using hn)]
    simp
  | succ k ih =>
    intro n hn
    rw [natChars]
    split
    · simp
    · next hge =>
      have hdiv : n / 10 < 10 ^ (k + 1) := by
        rw [Nat.div_lt_iff_lt_mul (by omega)]
        calc n < 10 ^ (k + 2) := hn
        _ = 10 ^ (k + 1) * 10 := by ring
      have := ih (n / 10) hdiv
      simp only [List.length_append, List.length_singleton]
      omega

theorem intChars_ne_nil (v : ℤ) : intChars v ≠ [] := by
  unfold intChars
  split
  · simp
  · exact natChars_ne_nil _

theorem intChars_not_sep (v : ℤ) : ∀ ch ∈ intChars v, isSep ch = false := by
  unfold intChars
  split
  · intro ch hch
    rcases List.mem_cons.mp hch with h | h
    · rw [h]; decide
    · exact natChars_not_sep _ ch h
  · exact natChars_not_sep _

theorem not_sep_not_newline {ch : Char} (h : isSep ch = false) :
    (ch == '\n') = false := by
  unfold isSep at h
  exact Bool.or_eq_false_iff.mp h |>.2

theorem intChars_length_le3 (v : ℤ) (h0 : 0 ≤ v) (h255 : v ≤ 255) :
    (intChars v).length ≤ 3 := by
  unfold intChars
  rw [if_neg (by omega)]
  have hlt : v.toNat < 10 ^ (2 + 1) := by
    have : v.toNat ≤ 255 := by omega
    norm_num
    omega
  exact natChars_length_le 2 v.toNat hlt

theorem clampI32_bounds (x : ℤ) : 0 ≤ clampI32 x 0 255 ∧
    clampI32 x 0 255 ≤ 255 := by
  unfold clampI32
  split
  · omega
  · split <;> omega

theorem ppmValues_bounds (c : Canvas) :
    ∀ v ∈ c.ppmValues, 0 ≤ v ∧ v ≤ 255 := by
  intro v hv
  unfold Canvas.ppmValues at hv
  simp only [List.mem_flatMap] at hv
  obtain ⟨pixel, _, hmem⟩ := hv
  simp only [List.mem_cons, List.not_mem_nil, or_false] at hmem
  rcases hmem with h | h | h <;> (rw [h]; exact clampI32_bounds _)

theorem toPpmLoop_nil (rowLen : Nat) (i : Nat) (ppm line : List Char) :
    toPpmLoop rowLen [] i ppm line = ppm ++ (line ++ ['\n']) := by
  rw [toPpmLoop]

theorem toPpmLoop_cons (rowLen : Nat) (v : ℤ) (rest : List ℤ) (i : Nat)
    (ppm line : List Char) :
    toPpmLoop rowLen (v :: rest) i ppm line =
      toPpmLoop rowLen rest (i + 1)
        (if (i + 1) % rowLen = 0 then
          (if line.length + 1 + (intChars v).length ≥ PPM_LINE_LENGTH then
            ppm ++ (line ++ ['\n']) else ppm) ++
          ((if line.length + 1 + (intChars v).length ≥ PPM_LINE_LENGTH then
              intChars v
            else
              (if 0 < line.length then line ++ [' '] ++ intChars v
                else line ++ intChars v)) ++ ['\n'])
        else
          (if line.length + 1 + (intChars v).length ≥ PPM_LINE_LENGTH then
            ppm ++ (line ++ ['\n']) else ppm))
        (if (i + 1) % rowLen = 0 then []
        else
          (if line.length + 1 + (intChars v).length ≥ PPM_LINE_LENGTH then
            intChars v
          else
            (if 0 < line.length then line ++ [' '] ++ intChars v
              else line ++ intChars v))) := by
  by_cases h1 : line.length + 1 + (intChars v).length ≥ PPM_LINE_LENGTH <;>
    by_cases h2 : (i + 1) % rowLen = 0 <;>
      simp [toPpmLoop, h1, h2]

theorem joinLines_snoc (D : List (List Char)) (l : List Char) :
    joinLines D ++ (l ++ ['\n']) = joinLines (D ++ [l]) := by
  rw [joinLines_append]
  simp [joinLines]

theorem toPpmLoop_spec (rowLen : Nat) :
    ∀ (values : List ℤ) (i : Nat) (done : List (List Char))
      (line : List Char),
    (∀ v ∈ values, (intChars v).length ≤ 3) →
    (∀ l ∈ done, l.length ≤ 69 ∧ ∀ ch ∈ l, (ch == '\n') = false) →
    line.length ≤ 69 →
    (∀ ch ∈ line, (ch == '\n') = false) →
    ∃ done',
      toPpmLoop rowLen values i (joinLines done) line = joinLines done' ∧
      (∀ l ∈ done', l.length ≤ 69 ∧ ∀ ch ∈ l, (ch == '\n') = false) ∧
      done' ≠ [] ∧
      wordsOf (joinLines done') =
        wordsOf (joinLines done) ++ wordsOf line ++ values.map intChars := by
  intro values
  induction values with
  | nil =>
    intro i done line _ hdone hlen hnl
    refine ⟨done ++ [line], ?_, ?_, by simp, ?_⟩
    · rw [toPpmLoop_nil, joinLines_snoc]
    · intro l hl
      rcases List.mem_append.mp hl with h | h
      · exact hdone l h
      · simp only [List.mem_singleton] at h
        exact h ▸ ⟨hlen, hnl⟩
    · rw [wordsOf_joinLines_snoc]
      simp
  | cons v rest ih =>
    intro i done line hvals hdone hlen hnl
    have hv3 : (intChars v).length ≤ 3 := hvals v (by simp)
    have hvrest : ∀ v' ∈ rest, (intChars v').length ≤ 3 :=
      fun v' hv' => hvals v' (by simp [hv'])
    have hvnl : ∀ ch ∈ intChars v, (ch == '\n') = false :=
      fun ch hch => not_sep_not_newline (intChars_not_sep v ch hch)
    have hvne := intChars_ne_nil v
    have hwv : wordsOf (intChars v) = [intChars v] :=
      wordsOf_noSep _ (intChars_not_sep v) hvne
    rw [toPpmLoop_cons]
    have hfinal : ∀ (done₁ : List (List Char)) (nl : List Char),
        (∀ l ∈ done₁, l.length ≤ 69 ∧ ∀ ch ∈ l, (ch == '\n') = false) →
        nl.length ≤ 69 →
        (∀ ch ∈ nl, (ch == '\n') = false) →
        wordsOf (joinLines done₁) ++ wordsOf nl =
          wordsOf (joinLines done) ++ wordsOf line ++ [intChars v] →
        ∃ done',
          toPpmLoop rowLen rest (i + 1)
            (if (i + 1) % rowLen = 0 then
              joinLines done₁ ++ (nl ++ ['\n']) else joinLines done₁)
            (if (i + 1) % rowLen = 0 then [] else nl) = joinLines done' ∧
          (∀ l ∈ done', l.length ≤ 69 ∧ ∀ ch ∈ l, (ch == '\n') = false) ∧
          done' ≠ [] ∧
          wordsOf (joinLines done') =
            wordsOf (joinLines done) ++ wordsOf line ++
              (v :: rest).map intChars := by
      intro done₁ nl hgood₁ hnllen hnlnl hwacc
      by_cases h2 : (i + 1) % rowLen = 0
      · rw [if_pos h2, if_pos h2, joinLines_snoc]
        obtain ⟨done', heq, hgood, hne, hwords⟩ :=
          ih (i + 1) (done₁ ++ [nl]) []
            hvrest
            (by
              intro l hl
              rcases List.mem_append.mp hl with h | h
              · exact hgood₁ l h
              · simp only [List.mem_singleton] at h
                exact h ▸ ⟨hnllen, hnlnl⟩)
            (by simp) (by simp)
        refine ⟨done', heq, hgood, hne, ?_⟩
        rw [hwords, wordsOf_joinLines_snoc, wordsOf_nil, hwacc]
        simp
      · rw [if_neg h2, if_neg h2]
        obtain ⟨done', heq, hgood, hne, hwords⟩ :=
          ih (i + 1) done₁ nl hvrest hgood₁ hnllen hnlnl
        refine ⟨done', heq, hgood, hne, ?_⟩
        rw [hwords, hwacc]
        simp
    by_cases h1 : line.length + 1 + (intChars v).length ≥ PPM_LINE_LENGTH
    · simp only [if_pos h1]
      rw [joinLines_snoc]
      exact hfinal (done ++ [line]) (intChars v)
        (by
          intro l hl
          rcases List.mem_append.mp hl with h | h
          · exact hdone l h
          · simp only [List.mem_singleton] at h
            exact h ▸ ⟨hlen, hnl⟩)
        (by omega)
        hvnl
        (by rw [wordsOf_joinLines_snoc, hwv])
    · simp only [if_neg h1]
      have hsum : line.length + 1 + (intChars v).length ≤ 69 := by
        unfold PPM_LINE_LENGTH at h1
        omega
      by_cases h3 : 0 < line.length
      · simp only [if_pos h3]
        have hassoc : line ++ [' '] ++ intChars v = line ++ ' ' :: intChars v
          := by simp
        exact hfinal done (line ++ [' '] ++ intChars v)
          hdone
          (by simp only [List.length_append, List.length_singleton]; omega)
          (by
            intro ch hch
            rw [hassoc] at hch
            rcases List.mem_append.mp hch with h | h
            · exact hnl ch h
            · rcases List.mem_cons.mp h with h' | h'
              · rw [h']; decide
              · exact hvnl ch h')
          (by
            rw [hassoc, wordsOf_append_sep ' ' (by decide) line (intChars v),
              hwv]
            simp [List.append_assoc])
      · simp only [if_neg h3]
        have hline0 : line = [] := List.length_eq_zero.mp (by omega)
        subst hline0
        exact hfinal done (intChars v)
          hdone
          (by simpa using by omega)
          (by simpa using hvnl)
          (by rw [wordsOf_nil, hwv]; simp)

theorem pow64_lt : (2 : Nat) ^ 64 < 10 ^ 20 := by norm_num

theorem natChars_le20 {n : Nat} (h : n < 2 ^ 64) :
    (natChars n).length ≤ 20 :=
  natChars_length_le 19 n (lt_trans h (by norm_num))

theorem natChars_no_newline (n : Nat) :
    ∀ ch ∈ natChars n, (ch == '\n') = false :=
  fun ch hch => not_sep_not_newline (natChars_not_sep n ch hch)

/-- Claim C7: the text produced by `Canvas::to_ppm` has no line longer than
70 characters, ends with a trailing newline, and its whitespace-separated
tokens are exactly `P3`, the width, the height, `255`, and then the decimal
rendering of every clamped channel value in order — so no numeric value is
ever split across two lines.  The `usize` dimensions carry their 64-bit
machine bound. -/
theorem to_ppm_layout (c : Canvas) (hw : c.width < 2 ^ 64)
    (hh : c.height < 2 ^ 64) :
    (∀ l ∈ linesOf c.to_ppm, l.length ≤ 70) ∧
    (∃ s, c.to_ppm = s ++ ['\n']) ∧
    wordsOf c.to_ppm =
      [['P', '3'], natChars c.width, natChars c.height, ['2', '5', '5']] ++
        c.ppmValues.map intChars := by
  have hheader : ['P', '3', '\n'] ++ natChars c.width ++ [' '] ++
      natChars c.height ++ ['\n', '2', '5', '5', '\n'] =
      joinLines [['P', '3'],
        natChars c.width ++ [' '] ++ natChars c.height, ['2', '5', '5']] := by
    simp [joinLines]
  have hto : c.to_ppm = toPpmLoop (c.width * 3) c.ppmValues 0
      (joinLines [['P', '3'],
        natChars c.width ++ [' '] ++ natChars c.height, ['2', '5', '5']])
      [] := by
    simp only [Canvas.to_ppm]
    rw [← hheader]
  have hmidlen : (natChars c.width ++ [' '] ++ natChars c.height).length ≤ 69
    := by
    have h1 := natChars_le20 hw
    have h2 := natChars_le20 hh
    simp only [List.length_append, List.length_singleton]
    omega
  have hmidnl : ∀ ch ∈ natChars c.width ++ [' '] ++ natChars c.height,
      (ch == '\n') = false := by
    intro ch hch
    rcases List.mem_append.mp hch with h | h
    · rcases List.mem_append.mp h with h' | h'
      · exact natChars_no_newline _ ch h'
      · simp only [List.mem_singleton] at h'
        rw [h']; decide
    · exact natChars_no_newline _ ch h
  have hgoodhdr : ∀ l ∈ [['P', '3'],
      natChars c.width ++ [' '] ++ natChars c.height, ['2', '5', '5']],
      l.length ≤ 69 ∧ ∀ ch ∈ l, (ch == '\n') = false := by
    intro l hl
    simp only [List.mem_cons, List.not_mem_nil, or_false] at hl
    rcases hl with h | h | h
    · rw [h]; exact ⟨by norm_num, by decide⟩
    · rw [h]; exact ⟨hmidlen, hmidnl⟩
    · rw [h]; exact ⟨by norm_num, by decide⟩
  have hvals : ∀ v ∈ c.ppmValues, (intChars v).length ≤ 3 := by
    intro v hv
    obtain ⟨h0, h255⟩ := ppmValues_bounds c v hv
    exact intChars_length_le3 v h0 h255
  obtain ⟨done', heq, hgood, hne, hwords⟩ :=
    toPpmLoop_spec (c.width * 3) c.ppmValues 0
      [['P', '3'], natChars c.width ++ [' '] ++ natChars c.height,
        ['2', '5', '5']] []
      hvals hgoodhdr (by simp) (by simp)
  rw [hto, heq]
  refine ⟨?_, ?_, ?_⟩
  · rw [linesOf_joinLines done' (fun l hl => (hgood l hl).2)]
    intro l hl
    rcases List.mem_append.mp hl with h | h
    · exact le_trans (hgood l h).1 (by norm_num)
    · simp only [List.mem_singleton] at h
      rw [h]; simp
  · exact joinLines_ends_newline done' hne
  · rw [hwords, wordsOf_nil]
    rw [joinLines_cons, wordsOf_append_sep '\n' (by decide),
      joinLines_cons, wordsOf_append_sep '\n' (by decide),
      joinLines_cons, wordsOf_append_sep '\n' (by decide),
      joinLines_nil, wordsOf_nil]
    have hmid : natChars c.width ++ [' '] ++ natChars c.height =
        natChars c.width ++ ' ' :: natChars c.height := by simp
    rw [hmid, wordsOf_append_sep ' ' (by decide),
      wordsOf_noSep (natChars c.width) (natChars_not_sep _)
        (natChars_ne_nil _),
      wordsOf_noSep (natChars c.height) (natChars_not_sep _)
        (natChars_ne_nil _),
      wordsOf_noSep ['P', '3'] (by decide) (by decide),
      wordsOf_noSep ['2', '5', '5'] (by decide) (by decide)]
    simp

/-- Witness for C7 at the concrete canvas `Canvas::new(2, 2)`. -/
theorem to_ppm_layout_witness :
    (Canvas.new 2 2).width < 2 ^ 64 ∧ (Canvas.new 2 2).height < 2 ^ 64 ∧
    ((∀ l ∈ linesOf (Canvas.new 2 2).to_ppm, l.length ≤ 70) ∧
     (∃ s, (Canvas.new 2 2).to_ppm = s ++ ['\n']) ∧
     wordsOf (Canvas.new 2 2).to_ppm =
       [['P', '3'], natChars (Canvas.new 2 2).width,
        natChars (Canvas.new 2 2).height, ['2', '5', '5']] ++
         (Canvas.new 2 2).ppmValues.map intChars) :=
  ⟨by norm_num [Canvas.new], by norm_num [Canvas.new],
   to_ppm_layout (Canvas.new 2 2) (by norm_num [Canvas.new])
     (by norm_num [Canvas.new])⟩
